import Mathlib

/-!
Verification of the `raft::kvelldb::kvrsm` replicated key-value state machine
(src/v/raft/kvelldb/kvrsm.cc) and of the storage batch-parser consumer protocol
exercised by src/v/storage/tests/parser_test.cc.

The state machine's pure core (`execute` on `set_cmd`/`get_cmd`/`cas_cmd`,
`process`, `apply`, and the pending-promise table manipulated by
`replicate_and_wait`) is embedded as executable Lean functions over an
association-list map, mirroring the C++ control flow branch by branch.
-/

set_option autoImplicit false


/-- A stored record: `kvrsm::record` from kvrsm.h, `{write_id, value}`. -/
structure KvRecord where
  write_id : String
  value : String
  deriving DecidableEq, Repr

/-- The in-memory key-value map `kv_map` (an associative container keyed by
string; at most one entry per key is maintained by the execute functions). -/
abbrev KvMap := List (String × KvRecord)

/-- Lookup of a key, first matching entry (`kv_map.find` / `contains`). -/
def lookupKV : KvMap → String → Option KvRecord
  | [], _ => Option.none
  | (k0, r) :: rest, k => if k0 = k then some r else lookupKV rest k

/-- `kv_map.contains(key)`. -/
def containsKV (m : KvMap) (k : String) : Bool :=
  (lookupKV m k).isSome

/-- In-place mutation of the record stored under an existing key
(`kv_map[c.key]` followed by field assignment): replaces the first entry
whose key matches. -/
def updateKV : KvMap → String → KvRecord → KvMap
  | [], _, _ => []
  | (k0, r0) :: rest, k, r =>
    if k0 = k then (k0, r) :: rest else (k0, r0) :: updateKV rest k r

/-- Modelled from the spec: the `raft::kvelldb::errc` codes visible in
kvrsm.cc (the errc.h header is not among the provided sources): `none` for a
successful command, plus `not_found`, `conflict`, `unknown_command`,
`timeout`, `raft_error` as used in kvrsm.cc. -/
inductive KvErr
  | none
  | not_found
  | conflict
  | unknown_command
  | timeout
  | raft_error
  deriving DecidableEq, Repr

/-- Modelled from the spec: the `raft::errc` replication status stored in a
result: `success`, `timeout`, or a replication failure carrying the error
code returned by `replicate` (spec's `ReplicationFailed`). -/
inductive RaftErr
  | success
  | timeout
  | replicationFailed (code : Nat)
  deriving DecidableEq, Repr

/-- `kvrsm::cmd_result`: `{write_id, value, kv_error, replication_error}`.
The header defining its constructors is not in the provided sources; per the
spec's data model, the error-only constructor leaves the strings empty and
the value constructor marks both error fields as success. -/
structure cmd_result where
  write_id : String
  value : String
  kv_error : KvErr
  replication_error : RaftErr
  deriving DecidableEq, Repr

/-- `cmd_result(write_id, value)`: a successful command result. -/
def okResult (w v : String) : cmd_result :=
  ⟨w, v, KvErr.none, RaftErr.success⟩

/-- `cmd_result(kv_errc, raft_errc)`: an error result with empty strings. -/
def errResult (ke : KvErr) (re : RaftErr) : cmd_result :=
  ⟨"", "", ke, re⟩

/-- `set_cmd{key, value, write_id}`. -/
structure set_cmd where
  key : String
  value : String
  write_id : String
  deriving DecidableEq, Repr

/-- `get_cmd{key}`. -/
structure get_cmd where
  key : String
  deriving DecidableEq, Repr

/-- `cas_cmd{key, prev_write_id, value, write_id}`. -/
structure cas_cmd where
  key : String
  prev_write_id : String
  value : String
  write_id : String
  deriving DecidableEq, Repr

/-- `kvrsm::execute(set_cmd)`: upsert; if the key is present mutate the
stored record's fields, otherwise emplace a fresh record; either way echo
the new `{write_id, value}`. -/
def executeSet (m : KvMap) (c : set_cmd) : KvMap × cmd_result :=
  if containsKV m c.key then
    (updateKV m c.key ⟨c.write_id, c.value⟩, okResult c.write_id c.value)
  else
    ((c.key, ⟨c.write_id, c.value⟩) :: m, okResult c.write_id c.value)

/-- `kvrsm::execute(get_cmd)`: lookup only, the map is not touched. -/
def executeGet (m : KvMap) (c : get_cmd) : cmd_result :=
  match lookupKV m c.key with
  | some r => okResult r.write_id r.value
  | Option.none => errResult KvErr.not_found RaftErr.success

/-- `kvrsm::execute(cas_cmd)`: if the key is present and the stored
`write_id` equals `prev_write_id`, mutate and return the new values; on a
mismatch return the current record with `conflict` and leave the map alone;
on an absent key return `not_found`. -/
def executeCas (m : KvMap) (c : cas_cmd) : KvMap × cmd_result :=
  match lookupKV m c.key with
  | some r =>
    if r.write_id = c.prev_write_id then
      (updateKV m c.key ⟨c.write_id, c.value⟩, okResult c.write_id c.value)
    else
      (m, ⟨r.write_id, r.value, KvErr.conflict, RaftErr.success⟩)
  | Option.none => (m, errResult KvErr.not_found RaftErr.success)

/-- The three command variants of the state machine, as a tagged union. -/
inductive Cmd
  | set (c : set_cmd)
  | get (c : get_cmd)
  | cas (c : cas_cmd)
  deriving DecidableEq, Repr

/-- One committed command applied to the map: the map component of the
matching `kvrsm::execute` overload (`execute(get_cmd)` reads only). -/
def applyCmd (m : KvMap) : Cmd → KvMap × cmd_result
  | Cmd.set c => executeSet m c
  | Cmd.get c => (m, executeGet m c)
  | Cmd.cas c => executeCas m c

/-- A sequence of committed commands applied in order. -/
def runCmds (m : KvMap) : List Cmd → KvMap
  | [] => m
  | c :: rest => runCmds (applyCmd m c).1 rest

/-- Modelled from the spec's words, for comparison with `runCmds`: the
binding of one key after a command, keeping the value of the last `Set` or
last successful `Cas` (one whose `prev_write_id` matches the then-current
`write_id`); a `Get`, a failed `Cas`, or a command for another key keeps
the current binding. -/
def specStep (cur : Option KvRecord) (k : String) : Cmd → Option KvRecord
  | Cmd.set c => if c.key = k then some ⟨c.write_id, c.value⟩ else cur
  | Cmd.get _ => cur
  | Cmd.cas c =>
    if c.key = k then
      match cur with
      | some r =>
        if r.write_id = c.prev_write_id then some ⟨c.write_id, c.value⟩ else cur
      | Option.none => cur
    else cur

/-- Modelled from the spec's words: the binding of one key after a whole
command sequence. -/
def specLast (cur : Option KvRecord) (k : String) : List Cmd → Option KvRecord
  | [] => cur
  | c :: rest => specLast (specStep cur k c) k rest

/-- Modelled from the spec: the reserved batch content type
`kvrsm::kvrsm_batch_type` (declared in kvrsm.h, not among the provided
sources); only its distinctness from other tags matters. -/
def kvrsm_batch_type : Nat := 5

/-- Modelled from the spec: `set_cmd::record_key`, the one-byte
discriminator of `Set` (declared in kvrsm.h; the three keys are distinct). -/
def set_record_key : Nat := 0

/-- Modelled from the spec: `get_cmd::record_key`. -/
def get_record_key : Nat := 1

/-- Modelled from the spec: `cas_cmd::record_key`. -/
def cas_record_key : Nat := 2

/-- A record batch as seen by the state machine: the header's content type,
the batch's last offset, and its single record given as the discriminator
byte of the key plus the value's fields (the spec's wire format stores the
variant's fields as length-prefixed byte strings in declaration order). -/
structure KBatch where
  btype : Nat
  lastOffset : Nat
  recordKey : Nat
  fields : List String
  deriving DecidableEq, Repr

/-- Field access during deserialization: the i-th length-prefixed string. -/
def fieldAt (fs : List String) (i : Nat) : String :=
  fs.getD i ""

/-- `reflection::adl<set_cmd>::from`: fields in declaration order
`{key, value, write_id}`. -/
def setFromFields (fs : List String) : set_cmd :=
  ⟨fieldAt fs 0, fieldAt fs 1, fieldAt fs 2⟩

/-- `reflection::adl<get_cmd>::from`: the single field `{key}`. -/
def getFromFields (fs : List String) : get_cmd :=
  ⟨fieldAt fs 0⟩

/-- `reflection::adl<cas_cmd>::from`: fields in declaration order
`{key, prev_write_id, value, write_id}`. -/
def casFromFields (fs : List String) : cas_cmd :=
  ⟨fieldAt fs 0, fieldAt fs 1, fieldAt fs 2, fieldAt fs 3⟩

/-- `kvrsm::process`: read the record key's discriminator byte, dispatch to
the matching variant's deserializer and `execute` overload; an unrecognized
discriminator yields `unknown_command` with replication success and leaves
the map alone. -/
def process (m : KvMap) (b : KBatch) : KvMap × cmd_result :=
  if b.recordKey = set_record_key then
    executeSet m (setFromFields b.fields)
  else if b.recordKey = get_record_key then
    (m, executeGet m (getFromFields b.fields))
  else if b.recordKey = cas_record_key then
    executeCas m (casFromFields b.fields)
  else
    (m, errResult KvErr.unknown_command RaftErr.success)

/-- The pending-request table `_promises`: offset to promise, a registered
promise being unresolved (`none`) or resolved with a result (`some`). -/
abbrev PendingTable := List (Nat × Option cmd_result)

/-- `_promises.find(offset) != end`. -/
def hasOffset : PendingTable → Nat → Bool
  | [], _ => false
  | (o, _) :: rest, off => o = off || hasOffset rest off

/-- `it->second.set_value(result)`: resolve the promise registered for an
offset, if any; on an absent offset nothing happens. -/
def setPromiseValue : PendingTable → Nat → cmd_result → PendingTable
  | [], _, _ => []
  | (o, p) :: rest, off, r =>
    if o = off then (o, some r) :: rest else (o, p) :: setPromiseValue rest off r

/-- `_promises.erase(offset)`: drop the entry registered for an offset. -/
def eraseOffset : PendingTable → Nat → PendingTable
  | [], _ => []
  | (o, p) :: rest, off =>
    if o = off then rest else (o, p) :: eraseOffset rest off

/-- The state owned by the state machine: the key-value map and the
pending-request table. -/
structure SMState where
  kv_map : KvMap
  promises : PendingTable
  deriving DecidableEq, Repr

/-- `kvrsm::apply`: on a batch of the reserved type, process it against the
map and resolve the promise registered for the batch's last offset if one
exists; a batch of any other type is passed through untouched. -/
def kvApply (s : SMState) (b : KBatch) : SMState :=
  if b.btype = kvrsm_batch_type then
    let pr := process s.kv_map b
    ⟨pr.1, setPromiseValue s.promises b.lastOffset pr.2⟩
  else s

/-- Outcome of `replicate`: an error code, or success carrying
`r.value().last_offset`. -/
inductive RepOutcome
  | error (code : Nat)
  | ok (lastOffset : Nat)
  deriving DecidableEq, Repr

/-- Outcome of the wait on a registered promise: either `apply` resolved it
with a result before the deadline, or the deadline expired first. -/
inductive WaitOutcome
  | applied (r : cmd_result)
  | expired
  deriving DecidableEq, Repr

/-- The result produced by the timeout continuation in
`replicate_and_wait`. -/
def timeoutResult : cmd_result :=
  errResult KvErr.timeout RaftErr.timeout

/-- `kvrsm::replicate_and_wait`, sequentialized over the two oracles: on a
replication error, return at once with the raft error and touch nothing; on
success, register a promise for the returned offset (`none` models the
`vassert` abort on a duplicate registration), then deliver either the
applied result or `timeoutResult`, erasing the entry in both cases
(`then_wrapped`). -/
def replicate_and_wait (s : SMState) (rep : RepOutcome) (w : WaitOutcome) :
    Option (SMState × cmd_result) :=
  match rep with
  | RepOutcome.error code =>
    some (s, errResult KvErr.raft_error (RaftErr.replicationFailed code))
  | RepOutcome.ok off =>
    if hasOffset s.promises off then Option.none
    else
      let registered : PendingTable := (off, Option.none) :: s.promises
      match w with
      | WaitOutcome.applied r => some (⟨s.kv_map, eraseOffset registered off⟩, r)
      | WaitOutcome.expired =>
        some (⟨s.kv_map, eraseOffset registered off⟩, timeoutResult)

/-- The operations `replicate_and_wait` and `apply` perform on the shared
pending table: `reg` is `_promises.emplace` guarded by the `vassert`,
`resolve` is `set_value` on a found entry, `unreg` is `_promises.erase`. -/
inductive TableOp
  | reg (off : Nat)
  | resolve (off : Nat) (r : cmd_result)
  | unreg (off : Nat)
  deriving DecidableEq, Repr

/-- One table operation; `none` models the `vassert` abort taken when a
second promise is registered for an offset already present. -/
def tableStep (t : PendingTable) : TableOp → Option PendingTable
  | TableOp.reg off =>
    if hasOffset t off then Option.none else some ((off, Option.none) :: t)
  | TableOp.resolve off r => some (setPromiseValue t off r)
  | TableOp.unreg off => some (eraseOffset t off)

/-- A sequence of table operations, aborting at the first `vassert`. -/
def tableRun (t : PendingTable) : List TableOp → Option PendingTable
  | [] => some t
  | op :: ops =>
    match tableStep t op with
    | Option.none => Option.none
    | some t1 => tableRun t1 ops

/-- The offsets currently registered in the table. -/
def offsetsOf (t : PendingTable) : List Nat :=
  t.map (fun p => p.1)

/-- Freshness of a sequence of table operations: every `reg` names an offset
not registered in the table at that moment (each registered offset is erased
before being registered again). -/
def freshRun (t : PendingTable) : List TableOp → Bool
  | [] => true
  | TableOp.reg off :: ops =>
    !hasOffset t off && freshRun ((off, Option.none) :: t) ops
  | TableOp.resolve off r :: ops => freshRun (setPromiseValue t off r) ops
  | TableOp.unreg off :: ops => freshRun (eraseOffset t off) ops

/-- Skip decision returned by `consume_batch_start` / `consume_record_key`. -/
inductive SkipDec
  | yes
  | no
  deriving DecidableEq, Repr

/-- Iteration decision returned by `consume_batch_end`. -/
inductive StopDec
  | stop
  | cont
  deriving DecidableEq, Repr

/-- A batch header as the parser exposes it to the consumer: base offset,
record count, compression flag, content-type tag. -/
structure PHeader where
  baseOffset : Nat
  recordCount : Nat
  compressedFlag : Bool
  contentType : Nat
  deriving DecidableEq, Repr

/-- One uncompressed record:
`{size, timestamp_delta, offset_delta, key_bytes, value_bytes}`. -/
structure PRecord where
  sizeBytes : Nat
  timestampDelta : Int
  offsetDelta : Int
  keyBytes : List Nat
  valueBytes : List Nat
  deriving DecidableEq, Repr

/-- A record set: an ordered sequence of records, or a record count with an
opaque compressed blob. -/
inductive PRecords
  | uncompressed (rs : List PRecord)
  | compressed (count : Nat) (blob : List Nat)
  deriving DecidableEq, Repr

/-- A batch: header plus record set. -/
structure PBatch where
  header : PHeader
  records : PRecords
  deriving DecidableEq, Repr

/-- Consistency of a batch as the writer produces it: the header's
compression flag matches the record-set variant and the header's record
count matches it (the length of the sequence, or the stored count). -/
def wfBatch (b : PBatch) : Bool :=
  match b.records with
  | PRecords.uncompressed rs =>
    b.header.compressedFlag = false && b.header.recordCount = rs.length
  | PRecords.compressed count _ =>
    b.header.compressedFlag = true && b.header.recordCount = count

/-- The consumer callback interface (`storage::batch_consumer`), with an
explicit consumer state threaded through the callbacks. -/
structure BatchConsumer (σ : Type) where
  batchStart : σ → PHeader → Nat → σ × SkipDec
  recordKey : σ → Nat → Int → Int → List Nat → σ × SkipDec
  recordValue : σ → List Nat → σ
  compressedRecords : σ → List Nat → σ
  batchEnd : σ → σ × StopDec

/-- Modelled from the spec: the per-record loop of the batch parser
(`storage::continuous_batch_parser`, whose implementation is not among the
provided sources): for each record in order, decode size, timestamp delta,
offset delta and the key bytes and offer them to `consume_record_key`; on
`Skip` advance past the value without a value callback, otherwise decode the
value bytes and call `consume_record_value`. -/
def consumeRecords {σ : Type} (c : BatchConsumer σ) (s : σ) :
    List PRecord → σ
  | [] => s
  | r :: rest =>
    let sk := c.recordKey s r.sizeBytes r.timestampDelta r.offsetDelta
      r.keyBytes
    match sk.2 with
    | SkipDec.yes => consumeRecords c sk.1 rest
    | SkipDec.no => consumeRecords c (c.recordValue sk.1 r.valueBytes) rest

/-- Modelled from the spec: one batch of the parse loop. Read the header,
call `consume_batch_start` with the header's record count; on `Skip` advance
past the whole payload with no further callbacks; otherwise hand a
compressed payload to `consume_compressed_records` as one blob, or run the
per-record loop, and finish with `consume_batch_end`. -/
def consumeOneBatch {σ : Type} (c : BatchConsumer σ) (s : σ) (b : PBatch) :
    σ × StopDec :=
  let st := c.batchStart s b.header b.header.recordCount
  match st.2 with
  | SkipDec.yes => (st.1, StopDec.cont)
  | SkipDec.no =>
    let s2 :=
      match b.records with
      | PRecords.compressed _ blob => c.compressedRecords st.1 blob
      | PRecords.uncompressed rs => consumeRecords c st.1 rs
    c.batchEnd s2

/-- Modelled from the spec: one invocation of the parser's consume step:
process batches until the consumer answers `Stop` at a batch end or the
stream is exhausted; return the consumer state and the unread remainder of
the stream. -/
def consumeInvocation {σ : Type} (c : BatchConsumer σ) (s : σ) :
    List PBatch → σ × List PBatch
  | [] => (s, [])
  | b :: rest =>
    let st := consumeOneBatch c s b
    match st.2 with
    | StopDec.stop => (st.1, rest)
    | StopDec.cont => consumeInvocation c st.1 rest

/-- Repeated invocations of the consume step, as in the test's
`while (!ctx.eof()) parser->consume()` loop. -/
def consumeNTimes {σ : Type} (c : BatchConsumer σ) (s : σ)
    (stream : List PBatch) : Nat → σ × List PBatch
  | 0 => (s, stream)
  | Nat.succ n =>
    let st := consumeInvocation c s stream
    consumeNTimes c st.1 st.2 n

/-- The state of `test_consumer` from parser_test.cc: the skip budgets and
stop flag given to its constructor, the scratch fields holding the current
header, record count, and pending record pieces, and the accumulated
batches. -/
structure TCState where
  batchSkips : Nat
  recordSkips : Nat
  stopAtBatch : Bool
  header : PHeader
  numRecords : Nat
  recSize : Nat
  recTs : Int
  recOff : Int
  recKey : List Nat
  records : PRecords
  batches : List PBatch
  deriving DecidableEq, Repr

/-- `test_consumer::consume_batch_start`: store header and record count;
for an uncompressed batch reset the record accumulator and never skip; for a
compressed batch consume one unit of the skip budget if any remains. -/
def tcBatchStart (s : TCState) (h : PHeader) (n : Nat) : TCState × SkipDec :=
  let s1 := { s with header := h, numRecords := n }
  if h.compressedFlag = false then
    ({ s1 with records := PRecords.uncompressed [] }, SkipDec.no)
  else if s1.batchSkips ≠ 0 then
    ({ s1 with batchSkips := s1.batchSkips - 1 }, SkipDec.yes)
  else (s1, SkipDec.no)

/-- `test_consumer::consume_record_key`: consume one unit of the record-skip
budget if any remains, otherwise latch the record pieces. -/
def tcRecordKey (s : TCState) (size : Nat) (ts io : Int) (key : List Nat) :
    TCState × SkipDec :=
  if s.recordSkips ≠ 0 then
    ({ s with recordSkips := s.recordSkips - 1 }, SkipDec.yes)
  else
    ({ s with recSize := size, recTs := ts, recOff := io, recKey := key },
      SkipDec.no)

/-- `test_consumer::consume_record_value`: append the latched pieces plus
the value bytes to the uncompressed accumulator (the uncompressed path is
the only one that reaches this callback). -/
def tcRecordValue (s : TCState) (v : List Nat) : TCState :=
  match s.records with
  | PRecords.uncompressed rs =>
    let r0 : PRecord := ⟨s.recSize, s.recTs, s.recOff, s.recKey, v⟩
    { s with records := PRecords.uncompressed (rs ++ [r0]) }
  | PRecords.compressed _ _ => s

/-- `test_consumer::consume_compressed_records`: store the blob with the
record count received at batch start. -/
def tcCompressedRecords (s : TCState) (blob : List Nat) : TCState :=
  { s with records := PRecords.compressed s.numRecords blob }

/-- `test_consumer::consume_batch_end`: append the rebuilt batch and stop
when constructed with `stop_at_batch = true`. -/
def tcBatchEnd (s : TCState) : TCState × StopDec :=
  ({ s with batches := s.batches ++ [⟨s.header, s.records⟩] },
    if s.stopAtBatch then StopDec.stop else StopDec.cont)

/-- The `test_consumer` as a `BatchConsumer`. -/
def testConsumer : BatchConsumer TCState :=
  ⟨tcBatchStart, tcRecordKey, tcRecordValue, tcCompressedRecords, tcBatchEnd⟩

/-- The consumer of `test_can_parse_multiple_batches_one_at_a_time`:
no batch skips, no record skips, stop after every batch, nothing
accumulated yet. -/
def initTC : TCState :=
  ⟨0, 0, true, ⟨0, 0, false, 0⟩, 0, 0, 0, 0, [], PRecords.uncompressed [], []⟩

/-- The consumer state after latching one record's key-side pieces. -/
def tcLatch (s : TCState) (r : PRecord) : TCState :=
  { s with recSize := r.sizeBytes, recTs := r.timestampDelta, recOff := r.offsetDelta, recKey := r.keyBytes }

theorem lookupKV_updateKV_self (m : KvMap) (k : String) (r : KvRecord)
    (h : containsKV m k = true) :
    lookupKV (updateKV m k r) k = some r := by
  induction m with
  | nil => simp [containsKV, lookupKV] at h
  | cons p rest ih =>
    obtain ⟨k0, r0⟩ := p
    by_cases hk : k0 = k
    · simp [updateKV, lookupKV, hk]
    · simp only [containsKV, lookupKV, if_neg hk] at h
      simp [updateKV, lookupKV, hk, ih h]

theorem lookupKV_updateKV_other (m : KvMap) (k k2 : String) (r : KvRecord)
    (h : k2 ≠ k) :
    lookupKV (updateKV m k r) k2 = lookupKV m k2 := by
  induction m with
  | nil => simp [updateKV]
  | cons p rest ih =>
    obtain ⟨k0, r0⟩ := p
    by_cases hk : k0 = k
    · subst hk
      have hne : k0 ≠ k2 := fun hh => h (hh.symm)
      simp [updateKV, lookupKV, hne]
    · simp [updateKV, lookupKV, hk, ih]

/-- C1: `Cas{key=k, prev_write_id=p, value=v2, write_id=w2}` on a key bound
to `{w, v}` succeeds exactly when `p = w`, mutating that key to `{w2, v2}`
(all other keys untouched) and returning the new pair; on a write-id
mismatch it returns the current `(w, v)` with `kv_error = conflict` and the
whole map unchanged; on an absent key it returns `not_found` and the map
unchanged. -/
theorem cas_semantics (m : KvMap) (k p v2 w2 w v : String) :
    (lookupKV m k = some ⟨w, v⟩ →
      (p = w →
        (executeCas m ⟨k, p, v2, w2⟩).2 = okResult w2 v2 ∧
        lookupKV (executeCas m ⟨k, p, v2, w2⟩).1 k = some ⟨w2, v2⟩ ∧
        ∀ k2, k2 ≠ k →
          lookupKV (executeCas m ⟨k, p, v2, w2⟩).1 k2 = lookupKV m k2) ∧
      (p ≠ w →
        executeCas m ⟨k, p, v2, w2⟩
          = (m, ⟨w, v, KvErr.conflict, RaftErr.success⟩))) ∧
    (lookupKV m k = Option.none →
      executeCas m ⟨k, p, v2, w2⟩ = (m, errResult KvErr.not_found RaftErr.success)) := by
  constructor
  · intro hfound
    constructor
    · intro hpw
      subst hpw
      have hcont : containsKV m k = true := by
        simp [containsKV, hfound]
      refine ⟨?_, ?_, ?_⟩
      · simp [executeCas, hfound]
      · simp only [executeCas, hfound]
        simp [lookupKV_updateKV_self m k _ hcont]
      · intro k2 hk2
        simp only [executeCas, hfound]
        simp [lookupKV_updateKV_other m k k2 _ hk2]
    · intro hpw
      have : ¬ (KvRecord.write_id ⟨w, v⟩ = p) := fun hh => hpw (hh.symm)
      simp [executeCas, hfound, this]
  · intro habsent
    simp [executeCas, habsent]

/-- Witness for C1: a concrete one-entry map exercising the success branch. -/
theorem cas_semantics_witness :
    (executeCas [("a", ⟨"w1", "v1"⟩)] ⟨"a", "w1", "v2", "w2"⟩).2
      = okResult "w2" "v2" :=
  (((cas_semantics [("a", ⟨"w1", "v1"⟩)] "a" "w1" "v2" "w2" "w1" "v1").1
    (by decide)).1 (by decide)).1

theorem lookupKV_applyCmd (m : KvMap) (c : Cmd) (k : String) :
    lookupKV (applyCmd m c).1 k = specStep (lookupKV m k) k c := by
  cases c with
  | set c =>
    obtain ⟨ck, cv, cw⟩ := c
    by_cases hck : ck = k
    · subst hck
      by_cases hc : containsKV m ck
      · simp [applyCmd, executeSet, hc, specStep,
          lookupKV_updateKV_self m ck _ hc]
      · simp [applyCmd, executeSet, hc, specStep, lookupKV]
    · by_cases hc : containsKV m ck
      · have hne : k ≠ ck := fun hh => hck hh.symm
        simp [applyCmd, executeSet, hc, specStep, hck,
          lookupKV_updateKV_other m ck k _ hne]
      · have hne : ck ≠ k := hck
        simp [applyCmd, executeSet, hc, specStep, hck, lookupKV, hne]
  | get c => simp [applyCmd, specStep]
  | cas c =>
    obtain ⟨ck, cp, cv, cw⟩ := c
    by_cases hck : ck = k
    · subst hck
      cases hfound : lookupKV m ck with
      | none => simp [applyCmd, executeCas, hfound, specStep]
      | some r =>
        by_cases hw : r.write_id = cp
        · have hc : containsKV m ck = true := by simp [containsKV, hfound]
          simp [applyCmd, executeCas, hfound, hw, specStep,
            lookupKV_updateKV_self m ck _ hc]
        · simp [applyCmd, executeCas, hfound, hw, specStep]
    · have hne : k ≠ ck := fun hh => hck hh.symm
      cases hfound : lookupKV m ck with
      | none => simp [applyCmd, executeCas, hfound, specStep, hck]
      | some r =>
        by_cases hw : r.write_id = cp
        · simp [applyCmd, executeCas, hfound, hw, specStep, hck,
            lookupKV_updateKV_other m ck k _ hne]
        · simp [applyCmd, executeCas, hfound, hw, specStep, hck]

theorem lookupKV_runCmds (cmds : List Cmd) (m : KvMap) (k : String) :
    lookupKV (runCmds m cmds) k = specLast (lookupKV m k) k cmds := by
  induction cmds generalizing m with
  | nil => simp [runCmds, specLast]
  | cons c rest ih =>
    simp [runCmds, specLast, ih, lookupKV_applyCmd]

/-- C2: after any command sequence run from the empty map, each key is bound
exactly to the `{write_id, value}` of the last `Set` or last successful
`Cas` for that key (per the spec-side characterization `specLast`, which
yields `none` for a key that saw neither), and `Get` never changes the
map. -/
theorem run_last_write (cmds : List Cmd) (k : String) :
    lookupKV (runCmds [] cmds) k = specLast Option.none k cmds ∧
    (∀ (m : KvMap) (g : get_cmd), (applyCmd m (Cmd.get g)).1 = m) := by
  constructor
  · have h := lookupKV_runCmds cmds [] k
    simpa [lookupKV] using h
  · intro m g
    simp [applyCmd]

theorem setPromiseValue_absent (t : PendingTable) (off : Nat) (r : cmd_result)
    (h : hasOffset t off = false) :
    setPromiseValue t off r = t := by
  induction t with
  | nil => rfl
  | cons p rest ih =>
    obtain ⟨o, pv⟩ := p
    simp only [hasOffset, Bool.or_eq_false_iff, decide_eq_false_iff_not] at h
    simp [setPromiseValue, h.1, ih h.2]

theorem eraseOffset_cons_self (t : PendingTable) (off : Nat)
    (p : Option cmd_result) :
    eraseOffset ((off, p) :: t) off = t := by
  simp [eraseOffset]

/-- C6: `apply` on a batch whose header type is not the reserved
`kvrsm_batch_type` is a pure pass-through: the map and the pending table are
both left exactly as they were. -/
theorem apply_passthrough (s : SMState) (b : KBatch)
    (h : b.btype ≠ kvrsm_batch_type) :
    kvApply s b = s := by
  simp [kvApply, h]

/-- Witness for C6: a concrete foreign-typed batch is ignored. -/
theorem apply_passthrough_witness :
    kvApply ⟨[("a", ⟨"w", "v"⟩)], [(3, Option.none)]⟩ ⟨0, 3, 0, ["a"]⟩
      = ⟨[("a", ⟨"w", "v"⟩)], [(3, Option.none)]⟩ :=
  apply_passthrough ⟨[("a", ⟨"w", "v"⟩)], [(3, Option.none)]⟩ ⟨0, 3, 0, ["a"]⟩
    (by decide)

/-- C7: `process` on a batch whose record-key discriminator is none of the
three recognized values returns `unknown_command` with replication success
and an unchanged map; each recognized discriminator dispatches to the
matching variant's deserializer and `execute` overload. -/
theorem process_dispatch (m : KvMap) (b : KBatch) :
    (b.recordKey ≠ set_record_key → b.recordKey ≠ get_record_key →
      b.recordKey ≠ cas_record_key →
      process m b = (m, errResult KvErr.unknown_command RaftErr.success)) ∧
    (b.recordKey = set_record_key →
      process m b = executeSet m (setFromFields b.fields)) ∧
    (b.recordKey = get_record_key →
      process m b = (m, executeGet m (getFromFields b.fields))) ∧
    (b.recordKey = cas_record_key →
      process m b = executeCas m (casFromFields b.fields)) := by
  refine ⟨?_, ?_, ?_, ?_⟩
  · intro h1 h2 h3
    simp [process, h1, h2, h3]
  · intro h1
    simp [process, h1]
  · intro h2
    simp [process, h2, set_record_key, get_record_key]
  · intro h3
    simp [process, h3, set_record_key, get_record_key, cas_record_key]

/-- Witness for C7: a discriminator byte outside the three recognized values
yields `unknown_command` and leaves the map untouched. -/
theorem process_dispatch_witness :
    process [("a", ⟨"w", "v"⟩)] ⟨kvrsm_batch_type, 9, 250, ["x"]⟩
      = ([("a", ⟨"w", "v"⟩)], errResult KvErr.unknown_command RaftErr.success) :=
  (process_dispatch [("a", ⟨"w", "v"⟩)] ⟨kvrsm_batch_type, 9, 250, ["x"]⟩).1
    (by decide) (by decide) (by decide)

/-- C5: when `replicate` reports an error, `replicate_and_wait` returns at
once with `kv_error = raft_error` and `replication_error` carrying that
replication failure, the result's strings are empty rather than command
output, and the state — in particular the pending table — is exactly the
input state: no entry was ever registered. -/
theorem replication_failure_immediate (s : SMState) (code : Nat)
    (w : WaitOutcome) :
    replicate_and_wait s (RepOutcome.error code) w
      = some (s, errResult KvErr.raft_error (RaftErr.replicationFailed code)) ∧
    (errResult KvErr.raft_error (RaftErr.replicationFailed code)).replication_error
      = RaftErr.replicationFailed code ∧
    (errResult KvErr.raft_error (RaftErr.replicationFailed code)).kv_error
      ≠ KvErr.not_found ∧
    (errResult KvErr.raft_error (RaftErr.replicationFailed code)).kv_error
      ≠ KvErr.conflict ∧
    (errResult KvErr.raft_error (RaftErr.replicationFailed code)).kv_error
      ≠ KvErr.unknown_command := by
  refine ⟨rfl, rfl, by simp [errResult], by simp [errResult], by simp [errResult]⟩

/-- C3: a `replicate_and_wait` call whose promise is not applied before the
deadline returns `timeoutResult` (whose `replication_error` is the timeout
code), its table entry has been erased — the final table is the original one
without the registered offset — and a subsequent `apply` of a reserved-type
batch at that offset leaves the pending table untouched while still running
the command against the map. -/
theorem timeout_then_apply_noop (s : SMState) (off : Nat) (b : KBatch)
    (h : hasOffset s.promises off = false)
    (hb : b.btype = kvrsm_batch_type) (ho : b.lastOffset = off) :
    ∃ s1, replicate_and_wait s (RepOutcome.ok off) WaitOutcome.expired
        = some (s1, timeoutResult) ∧
      timeoutResult.replication_error = RaftErr.timeout ∧
      hasOffset s1.promises off = false ∧
      (kvApply s1 b).promises = s1.promises ∧
      (kvApply s1 b).kv_map = (process s1.kv_map b).1 := by
  refine ⟨⟨s.kv_map, s.promises⟩, ?_, rfl, h, ?_, ?_⟩
  · simp [replicate_and_wait, h, eraseOffset_cons_self]
  · simp [kvApply, hb, ho, setPromiseValue_absent s.promises off _ h]
  · simp [kvApply, hb]

/-- Witness for C3: a concrete timed-out call followed by the late apply of
its batch; the table stays empty and the map takes the write. -/
theorem timeout_then_apply_noop_witness :
    ∃ s1,
      replicate_and_wait ⟨[], []⟩ (RepOutcome.ok 7) WaitOutcome.expired
        = some (s1, timeoutResult) ∧
      timeoutResult.replication_error = RaftErr.timeout ∧
      hasOffset s1.promises 7 = false ∧
      (kvApply s1 ⟨kvrsm_batch_type, 7, 0, ["k", "v", "w"]⟩).promises
        = s1.promises ∧
      (kvApply s1 ⟨kvrsm_batch_type, 7, 0, ["k", "v", "w"]⟩).kv_map
        = (process s1.kv_map ⟨kvrsm_batch_type, 7, 0, ["k", "v", "w"]⟩).1 :=
  timeout_then_apply_noop ⟨[], []⟩ 7 ⟨kvrsm_batch_type, 7, 0, ["k", "v", "w"]⟩
    (by decide) (by decide) (by decide)

/-- C10: the result a call receives on deadline expiry has `kv_error` set to
the timeout code — a value outside the four codes the result enumeration
lists for command outcomes — in addition to `replication_error` being the
timeout code. -/
theorem timeout_result_kv_error (s : SMState) (off : Nat)
    (h : hasOffset s.promises off = false) :
    ∃ s1, replicate_and_wait s (RepOutcome.ok off) WaitOutcome.expired
        = some (s1, timeoutResult) ∧
      timeoutResult.kv_error = KvErr.timeout ∧
      timeoutResult.kv_error ≠ KvErr.none ∧
      timeoutResult.kv_error ≠ KvErr.not_found ∧
      timeoutResult.kv_error ≠ KvErr.conflict ∧
      timeoutResult.kv_error ≠ KvErr.unknown_command ∧
      timeoutResult.replication_error = RaftErr.timeout := by
  refine ⟨⟨s.kv_map, s.promises⟩, ?_, rfl, by decide, by decide, by decide,
    by decide, rfl⟩
  simp [replicate_and_wait, h, eraseOffset_cons_self]

/-- Witness for C10: the timeout result at a concrete state and offset. -/
theorem timeout_result_kv_error_witness :
    ∃ s1, replicate_and_wait ⟨[], [(2, Option.none)]⟩ (RepOutcome.ok 5)
        WaitOutcome.expired = some (s1, timeoutResult) ∧
      timeoutResult.kv_error = KvErr.timeout ∧
      timeoutResult.kv_error ≠ KvErr.none ∧
      timeoutResult.kv_error ≠ KvErr.not_found ∧
      timeoutResult.kv_error ≠ KvErr.conflict ∧
      timeoutResult.kv_error ≠ KvErr.unknown_command ∧
      timeoutResult.replication_error = RaftErr.timeout :=
  timeout_result_kv_error ⟨[], [(2, Option.none)]⟩ 5 (by decide)

theorem hasOffset_iff_mem (t : PendingTable) (off : Nat) :
    hasOffset t off = true ↔ off ∈ offsetsOf t := by
  induction t with
  | nil => simp [hasOffset, offsetsOf]
  | cons p rest ih =>
    obtain ⟨o, pv⟩ := p
    constructor
    · intro h
      simp only [hasOffset, Bool.or_eq_true, decide_eq_true_eq] at h
      rcases h with h | h
      · simp [offsetsOf, h]
      · simp only [offsetsOf, List.map_cons, List.mem_cons]
        exact Or.inr ((ih).1 h)
    · intro h
      simp only [offsetsOf, List.map_cons, List.mem_cons] at h
      rcases h with h | h
      · simp [hasOffset, h]
      · simp [hasOffset, (ih).2 h]

theorem offsetsOf_setPromiseValue (t : PendingTable) (off : Nat)
    (r : cmd_result) :
    offsetsOf (setPromiseValue t off r) = offsetsOf t := by
  induction t with
  | nil => rfl
  | cons p rest ih =>
    obtain ⟨o, pv⟩ := p
    by_cases ho : o = off
    · simp [setPromiseValue, ho, offsetsOf]
    · simp [setPromiseValue, ho, offsetsOf] at ih ⊢
      exact ih

theorem offsetsOf_eraseOffset_sublist (t : PendingTable) (off : Nat) :
    (offsetsOf (eraseOffset t off)).Sublist (offsetsOf t) := by
  induction t with
  | nil => simp [eraseOffset, offsetsOf]
  | cons p rest ih =>
    obtain ⟨o, pv⟩ := p
    by_cases ho : o = off
    · simp only [eraseOffset, if_pos ho, offsetsOf, List.map_cons]
      exact List.sublist_cons_of_sublist o (List.Sublist.refl _)
    · simp only [eraseOffset, if_neg ho, offsetsOf, List.map_cons]
      exact List.Sublist.cons₂ o ih

theorem tableStep_nodup (t t1 : PendingTable) (op : TableOp)
    (h : (offsetsOf t).Nodup) (hstep : tableStep t op = some t1) :
    (offsetsOf t1).Nodup := by
  cases op with
  | reg off =>
    by_cases hin : hasOffset t off
    · simp [tableStep, hin] at hstep
    · simp only [tableStep, if_neg hin, Option.some_inj] at hstep
      subst hstep
      have : off ∉ offsetsOf t := fun hm =>
        hin ((hasOffset_iff_mem t off).2 hm)
      simpa [offsetsOf] using And.intro this h
  | resolve off r =>
    simp only [tableStep, Option.some_inj] at hstep
    subst hstep
    simpa [offsetsOf_setPromiseValue] using h
  | unreg off =>
    simp only [tableStep, Option.some_inj] at hstep
    subst hstep
    exact (offsetsOf_eraseOffset_sublist t off).nodup h

/-- C4: offsets stay unique across every run of table operations — from a
table with pairwise-distinct registered offsets every successfully reached
table again has pairwise-distinct offsets — and when every `reg` names an
offset absent at that moment (erased before being handed out again by
`replicate`), the run never reaches the `vassert` abort. -/
theorem pending_table_unique (t : PendingTable) (ops : List TableOp)
    (h : (offsetsOf t).Nodup) :
    (∀ t1, tableRun t ops = some t1 → (offsetsOf t1).Nodup) ∧
    (freshRun t ops = true → (tableRun t ops).isSome = true) := by
  induction ops generalizing t with
  | nil =>
    constructor
    · intro t1 h1
      simp only [tableRun, Option.some_inj] at h1
      subst h1
      exact h
    · intro _
      simp [tableRun]
  | cons op ops ih =>
    constructor
    · intro t1 h1
      simp only [tableRun] at h1
      cases hstep : tableStep t op with
      | none => rw [hstep] at h1; exact absurd h1 (by simp)
      | some t2 =>
        rw [hstep] at h1
        exact (ih t2 (tableStep_nodup t t2 op h hstep)).1 t1 h1
    · intro hfresh
      cases op with
      | reg off =>
        simp only [freshRun, Bool.and_eq_true, Bool.not_eq_true'] at hfresh
        have hnd : (offsetsOf ((off, Option.none) :: t)).Nodup := by
          have : off ∉ offsetsOf t := fun hm =>
            by rw [(hasOffset_iff_mem t off).2 hm] at hfresh; exact absurd hfresh.1 (by simp)
          simpa [offsetsOf] using And.intro this h
        have := (ih _ hnd).2 hfresh.2
        simpa [tableRun, tableStep, hfresh.1] using this
      | resolve off r =>
        simp only [freshRun] at hfresh
        have hnd : (offsetsOf (setPromiseValue t off r)).Nodup := by
          simpa [offsetsOf_setPromiseValue] using h
        have := (ih _ hnd).2 hfresh
        simpa [tableRun, tableStep] using this
      | unreg off =>
        simp only [freshRun] at hfresh
        have hnd : (offsetsOf (eraseOffset t off)).Nodup :=
          (offsetsOf_eraseOffset_sublist t off).nodup h
        have := (ih _ hnd).2 hfresh
        simpa [tableRun, tableStep] using this

/-- Witness for C4: a run that registers, resolves, erases, and re-registers
the same offset never aborts. -/
theorem pending_table_unique_witness :
    (tableRun []
      [TableOp.reg 3, TableOp.resolve 3 timeoutResult, TableOp.unreg 3,
        TableOp.reg 3]).isSome = true :=
  (pending_table_unique []
    [TableOp.reg 3, TableOp.resolve 3 timeoutResult, TableOp.unreg 3,
      TableOp.reg 3] (by decide)).2 (by decide)

theorem consumeRecords_tc (rs : List PRecord) (s : TCState)
    (acc : List PRecord) (hsk : s.recordSkips = 0)
    (hrec : s.records = PRecords.uncompressed acc) :
    (consumeRecords testConsumer s rs).records
        = PRecords.uncompressed (acc ++ rs) ∧
    (consumeRecords testConsumer s rs).batches = s.batches ∧
    (consumeRecords testConsumer s rs).header = s.header ∧
    (consumeRecords testConsumer s rs).batchSkips = s.batchSkips ∧
    (consumeRecords testConsumer s rs).recordSkips = 0 ∧
    (consumeRecords testConsumer s rs).stopAtBatch = s.stopAtBatch := by
  induction rs generalizing s acc with
  | nil => simp [consumeRecords, hrec, hsk]
  | cons r rest ih =>
    have hstep : consumeRecords testConsumer s (r :: rest)
        = consumeRecords testConsumer
            (tcRecordValue (tcLatch s r) r.valueBytes) rest := by
      simp [consumeRecords, testConsumer, tcRecordKey, tcLatch, hsk]
    have hval : tcRecordValue (tcLatch s r) r.valueBytes
        = { tcLatch s r with records := PRecords.uncompressed (acc ++ [r]) } := by
      obtain ⟨r1, r2, r3, r4, r5⟩ := r
      simp [tcRecordValue, tcLatch, hrec]
    rw [hstep, hval]
    have ih2 := ih
      { tcLatch s r with records := PRecords.uncompressed (acc ++ [r]) }
      (acc ++ [r]) (by simp [tcLatch, hsk]) (by simp)
    simpa [tcLatch] using ih2

theorem consumeOneBatch_tc (s : TCState) (b : PBatch)
    (hb : s.batchSkips = 0) (hr : s.recordSkips = 0)
    (hst : s.stopAtBatch = true) (hwf : wfBatch b = true) :
    (consumeOneBatch testConsumer s b).2 = StopDec.stop ∧
    (consumeOneBatch testConsumer s b).1.batches = s.batches ++ [b] ∧
    (consumeOneBatch testConsumer s b).1.batchSkips = 0 ∧
    (consumeOneBatch testConsumer s b).1.recordSkips = 0 ∧
    (consumeOneBatch testConsumer s b).1.stopAtBatch = true := by
  obtain ⟨hdr, recs⟩ := b
  cases recs with
  | uncompressed rs =>
    simp only [wfBatch, Bool.and_eq_true, decide_eq_true_eq] at hwf
    obtain ⟨hflag, hcount⟩ := hwf
    have hone : consumeOneBatch testConsumer s ⟨hdr, PRecords.uncompressed rs⟩
        = tcBatchEnd (consumeRecords testConsumer
            { s with header := hdr, numRecords := hdr.recordCount, records := PRecords.uncompressed [] } rs) := by
      simp [consumeOneBatch, testConsumer, tcBatchStart, hflag]
    obtain ⟨h1, h2, h3, h4, h5, h6⟩ := consumeRecords_tc rs
      { s with header := hdr, numRecords := hdr.recordCount, records := PRecords.uncompressed [] }
      [] (by simp [hr]) (by simp)
    rw [hone]
    simp only [List.nil_append] at h1
    simp only [tcBatchEnd, h1, h2, h3, h4, h5, h6]
    simp [hb, hst]
  | compressed count blob =>
    simp only [wfBatch, Bool.and_eq_true, decide_eq_true_eq] at hwf
    obtain ⟨hflag, hcount⟩ := hwf
    have hone : consumeOneBatch testConsumer s ⟨hdr, PRecords.compressed count blob⟩
        = tcBatchEnd (tcCompressedRecords { s with header := hdr, numRecords := hdr.recordCount } blob) := by
      simp [consumeOneBatch, testConsumer, tcBatchStart, hflag, hb]
    rw [hone]
    simp only [tcBatchEnd, tcCompressedRecords]
    simp [hb, hr, hst, hcount]

theorem consumeInvocation_tc (s : TCState) (b : PBatch) (rest : List PBatch)
    (hb : s.batchSkips = 0) (hr : s.recordSkips = 0)
    (hst : s.stopAtBatch = true) (hwf : wfBatch b = true) :
    consumeInvocation testConsumer s (b :: rest)
        = ((consumeOneBatch testConsumer s b).1, rest) ∧
    (consumeOneBatch testConsumer s b).1.batches = s.batches ++ [b] ∧
    (consumeOneBatch testConsumer s b).1.batchSkips = 0 ∧
    (consumeOneBatch testConsumer s b).1.recordSkips = 0 ∧
    (consumeOneBatch testConsumer s b).1.stopAtBatch = true := by
  obtain ⟨h1, h2, h3, h4, h5⟩ := consumeOneBatch_tc s b hb hr hst hwf
  refine ⟨?_, h2, h3, h4, h5⟩
  simp [consumeInvocation, h1]

theorem consumeNTimes_tc (stream : List PBatch) (s : TCState)
    (hb : s.batchSkips = 0) (hr : s.recordSkips = 0)
    (hst : s.stopAtBatch = true) (hwf : ∀ b ∈ stream, wfBatch b = true) :
    (consumeNTimes testConsumer s stream stream.length).2 = [] ∧
    (consumeNTimes testConsumer s stream stream.length).1.batches
        = s.batches ++ stream := by
  induction stream generalizing s with
  | nil => simp [consumeNTimes]
  | cons b rest ih =>
    obtain ⟨h1, h2, h3, h4, h5⟩ := consumeInvocation_tc s b rest hb hr hst
      (hwf b (by simp))
    have ihr := ih (consumeOneBatch testConsumer s b).1 h3 h4 h5
      (fun b2 hm => hwf b2 (by simp [hm]))
    simp only [List.length_cons, consumeNTimes, h1]
    refine ⟨ihr.1, ?_⟩
    rw [ihr.2, h2]
    simp

/-- C8: with the consumer that answers `Stop` at every `consume_batch_end`
and skips nothing, invoking the parser's consume step once per batch of a
written stream (until end-of-stream) accumulates exactly the original batch
sequence, in order, with headers and record fields equal to the originals,
with no duplication or loss, and leaves no unread remainder. -/
theorem parser_resumable_roundtrip (stream : List PBatch)
    (hwf : ∀ b ∈ stream, wfBatch b = true) :
    (consumeNTimes testConsumer initTC stream stream.length).2 = [] ∧
    (consumeNTimes testConsumer initTC stream stream.length).1.batches
        = stream := by
  have h := consumeNTimes_tc stream initTC rfl rfl rfl hwf
  simpa [initTC] using h

/-- Witness for C8: a concrete two-batch stream (one uncompressed batch with
two records, one compressed batch) is reproduced by two stop-resumed
invocations. -/
theorem parser_resumable_roundtrip_witness :
    (consumeNTimes testConsumer initTC
      [⟨⟨1, 2, false, 9⟩, PRecords.uncompressed
          [⟨3, 1, 0, [107], [118]⟩, ⟨4, 2, 1, [108], [119]⟩]⟩,
        ⟨⟨3, 5, true, 9⟩, PRecords.compressed 5 [1, 2, 3]⟩] 2).1.batches
      = [⟨⟨1, 2, false, 9⟩, PRecords.uncompressed
          [⟨3, 1, 0, [107], [118]⟩, ⟨4, 2, 1, [108], [119]⟩]⟩,
        ⟨⟨3, 5, true, 9⟩, PRecords.compressed 5 [1, 2, 3]⟩] :=
  (parser_resumable_roundtrip
    [⟨⟨1, 2, false, 9⟩, PRecords.uncompressed
        [⟨3, 1, 0, [107], [118]⟩, ⟨4, 2, 1, [108], [119]⟩]⟩,
      ⟨⟨3, 5, true, 9⟩, PRecords.compressed 5 [1, 2, 3]⟩]
    (by decide)).2
